import Mathlib

/-!
Verification of the firefly word-counting pipeline.

Shallow embedding of the Go sources:
- internal/processing/counter.go : worker pool, merge stage, pickTop
- internal/wordbank (validator)  : word-shape regex and vocabulary membership
- internal/articles (source.go)  : retry policy, 429 backoff, HTML text extraction

Go maps token -> count are modelled as association lists with the map value
read through lookupCount; Go map iteration nondeterminism and goroutine
interleaving are modelled by quantifying over list orders / permutations.
Machine integers (time.Duration, int) are modelled as Int with explicit
two's-complement wrapping (wrap64) exactly where Go arithmetic can overflow.
-/

/-- Word character per Go regexp class \w : [0-9A-Za-z_]. -/
def isWordChar (c : Char) : Bool := c.isAlphanum || c == '_'

/-- Scanner for regexp FindAllString(\w+, -1): accumulates the current run of
word characters (reversed) and emits maximal runs in order. -/
def wordRunsAux : List Char → List Char → List String
  | [], cur => if cur.isEmpty then [] else [String.mk cur.reverse]
  | c :: rest, cur =>
    if isWordChar c then wordRunsAux rest (c :: cur)
    else if cur.isEmpty then wordRunsAux rest []
    else String.mk cur.reverse :: wordRunsAux rest []

/-- wordRegex.FindAllString(text, -1) with the default pattern \w+ :
the maximal runs of word characters of the text, in order. -/
def findAllWords (s : String) : List String := wordRunsAux s.data []

/-- wordbank.Validator.wordMatcher : regexp ^\w{3,}$ , unrolled as
\w\w\w\w* : three word characters followed by word characters only. -/
def matchWordShape (w : String) : Bool :=
  match w.data with
  | c1 :: c2 :: c3 :: rest =>
    isWordChar c1 && isWordChar c2 && isWordChar c3 && rest.all isWordChar
  | _ => false

/-- wordbank.Validator.Validate : false unless the token matches the word
pattern, then membership in the word bank. -/
def validate (words : List String) (w : String) : Bool :=
  if !matchWordShape w then false else words.contains w

/-- Reading a Go map token->count modelled as an association list:
value stored at the first matching key, zero when absent. -/
def lookupCount : List (String × Nat) → String → Nat
  | [], _ => 0
  | (k, v) :: rest, t => if k = t then v else lookupCount rest t

/-- m[tok] += n on an association list. -/
def addCount : List (String × Nat) → String → Nat → List (String × Nat)
  | [], t, n => [(t, n)]
  | (k, v) :: rest, t, n =>
    if k = t then (k, v + n) :: rest else (k, v) :: addCount rest t n

/-- Sum of the values stored under key t (equals lookupCount on maps with
distinct keys; robust under duplicate keys). -/
def entrySum : List (String × Nat) → String → Nat
  | [], _ => 0
  | (k, v) :: rest, t => (if k = t then v else 0) + entrySum rest t

/-- processURL body: local := map; for token in FindAllString: if
Validate(token) then local[token]++. -/
def localCounts (words : List String) (text : String) : List (String × Nat) :=
  (findAllWords text).foldl
    (fun m tok => if validate words tok then addCount m tok 1 else m) []

/-- Merge-stage body for one received partial: for token, count in partial:
global[token] += count. -/
def mergeInto (g p : List (String × Nat)) : List (String × Nat) :=
  p.foldl (fun m kv => addCount m kv.1 kv.2) g

/-- Occurrences of t in a token list. -/
def occ (t : String) : List String → Nat
  | [] => 0
  | x :: xs => (if x = t then 1 else 0) + occ t xs

/-- Occurrences of t among the tokens of a document that are extracted by the
word pattern and accepted by the validator. -/
def docValidCount (words : List String) (t : String) (text : String) : Nat :=
  occ t ((findAllWords text).filter (validate words))

/-- Comparison used by pickTop via sort.Slice: pairs ranked by count
descending (a before b when a.count >= b.count). -/
def countGE (a b : String × Nat) : Prop := b.2 ≤ a.2

instance : DecidableRel countGE :=
  fun a b => inferInstanceAs (Decidable (b.2 ≤ a.2))

instance : IsTotal (String × Nat) countGE :=
  ⟨fun a b => Nat.le_total b.2 a.2⟩

instance : IsTrans (String × Nat) countGE :=
  ⟨fun _ _ _ h1 h2 => Nat.le_trans h2 h1⟩

/-- pickTop (counter.go): empty on topN <= 0 or empty map; else the map
entries (in their arbitrary enumeration order, here the list order), sorted
by count descending (sort.Slice modelled by insertion sort, one sorted
permutation), truncated to topN when longer. -/
def pickTop (globalCounts : List (String × Nat)) (topN : Int) : List (String × Nat) :=
  if topN ≤ 0 ∨ globalCounts.length = 0 then []
  else
    let pairs := globalCounts.insertionSort countGE
    if pairs.length > topN.toNat then pairs.take topN.toNat else pairs

/-- Outcome of the fetcher for one URL. -/
inductive FetchOutcome where
  | ok : String → FetchOutcome
  | failed : FetchOutcome
deriving DecidableEq

/-- One worker iteration of a run, as resolved by the scheduler: the fetch
outcome for the URL it pulled, and whether ctx.Done() was chosen over the
channel send in the handoff select of processURL. -/
structure DocStep where
  outcome : FetchOutcome
  cancelAtHandoff : Bool
deriving DecidableEq

/-- processURL (counter.go): failed fetch reports false and sends nothing;
otherwise the local count is built, an empty local count is not sent, and the
handoff select sends the partial unless the cancellation branch is taken. -/
def processURLModel (words : List String) (st : DocStep) :
    Bool × Option (List (String × Nat)) :=
  match st.outcome with
  | FetchOutcome.failed => (false, none)
  | FetchOutcome.ok text =>
    let localMap := localCounts words text
    if localMap.length = 0 then (true, none)
    else if st.cancelAtHandoff then (true, none)
    else (true, some localMap)

/-- The partial counts that reach the merge channel, in arrival order. -/
def sentCounts (words : List String) (steps : List DocStep) :
    List (List (String × Nat)) :=
  steps.filterMap (fun st => (processURLModel words st).2)

/-- The merge goroutine: globalCounts starts empty and folds every partial
received from the channel; the barrier (wg.Wait, close, doneMerge) makes the
fold complete before the result is read. -/
def globalOf (words : List String) (steps : List DocStep) : List (String × Nat) :=
  (sentCounts words steps).foldl mergeInto []

/-- CountTopWords: the merged global count ranked by pickTop, paired with the
returned error, which is literally nil. -/
def countTopWordsModel (words : List String) (steps : List DocStep) (topN : Int) :
    List (String × Nat) × Option String :=
  (pickTop (globalOf words steps) topN, none)

/-- A run step whose fetch succeeded with the given text and where no
cancellation interfered. -/
def okStep (text : String) : DocStep := ⟨FetchOutcome.ok text, false⟩

/-- A fully successful, uncancelled run over the given document texts. -/
def okSteps (texts : List String) : List DocStep := texts.map okStep

/-- The part of an http.Response that the retry policy and backoff read. -/
structure HResponse where
  statusCode : Int
deriving DecidableEq

/-- Classification of a transport error per go-retryablehttp baseRetryPolicy:
the four url.Error shapes it refuses to retry (too many redirects, invalid
scheme, invalid header, certificate problems, the last two collapsed here
into the same refusal behaviour) and every other (transient) error. -/
inductive FetchErr where
  | tooManyRedirects
  | invalidScheme
  | invalidHeader
  | certNotTrusted
  | certError
  | transient
deriving DecidableEq

/-- go-retryablehttp baseRetryPolicy (dependency of NewSource, modelled from
the vendored library source): a non-nil error retries unless it is one of the
recognised terminal url.Error shapes; a response retries on status 429, on
status 0, and on 5xx other than 501. -/
def baseRetryPolicy (resp : Option HResponse) (err : Option FetchErr) : Bool :=
  match err with
  | some FetchErr.tooManyRedirects => false
  | some FetchErr.invalidScheme => false
  | some FetchErr.invalidHeader => false
  | some FetchErr.certNotTrusted => false
  | some FetchErr.certError => false
  | some FetchErr.transient => true
  | none =>
    match resp with
    | some r =>
      if r.statusCode = 429 then true
      else if r.statusCode = 0 ∨ (500 ≤ r.statusCode ∧ r.statusCode ≠ 501) then true
      else false
    | none => false

/-- go-retryablehttp DefaultRetryPolicy: no retry once the context is done,
otherwise baseRetryPolicy. -/
def defaultRetryPolicy (cancelled : Bool) (resp : Option HResponse)
    (err : Option FetchErr) : Bool :=
  if cancelled then false else baseRetryPolicy resp err

/-- The CheckRetry closure installed by articles.NewSource: retry on 429,
else delegate to DefaultRetryPolicy. -/
def checkRetry (cancelled : Bool) (resp : Option HResponse)
    (err : Option FetchErr) : Bool :=
  match resp with
  | some r =>
    if r.statusCode = 429 then true else defaultRetryPolicy cancelled resp err
  | none => defaultRetryPolicy cancelled resp err

/-- Attempt counter of the go-retryablehttp Do loop: each list element is the
CheckRetry verdict after one attempt; after attempt i the loop continues only
when the verdict is positive and RetryMax - i is still positive. -/
def doAttempts (retryMax : Int) (i : Int) : List Bool → Nat
  | [] => 0
  | verdict :: rest =>
    1 + (if verdict = true ∧ 0 < retryMax - i then doAttempts retryMax (i + 1) rest else 0)

/-- time.Second in time.Duration units (nanoseconds). -/
def second : Int := 1000000000

/-- Two's-complement wrap of Go int64 (time.Duration) arithmetic. -/
def wrap64 (n : Int) : Int := (n + 2 ^ 63) % 2 ^ 64 - 2 ^ 63

/-- Go expression 1 << uint(attemptNum) evaluated in time.Duration (int64):
shifts by 64 or more drop every bit. -/
def shiftOne64 (attemptNum : Nat) : Int :=
  if attemptNum < 64 then wrap64 (2 ^ attemptNum) else 0

/-- Digit run accepted by strconv.Atoi after the optional sign: nonempty,
decimal digits only. -/
def parseDigits (cs : List Char) : Option Nat :=
  if cs.isEmpty then none
  else if cs.all Char.isDigit then
    some (cs.foldl (fun acc c => acc * 10 + (c.toNat - 48)) 0)
  else none

/-- strconv.Atoi on a 64-bit platform: optional single sign, digits,
out-of-range values rejected (Atoi reports ErrRange, and the caller treats a
non-nil error as unparseable). -/
def atoi (s : String) : Option Int :=
  match s.data with
  | [] => none
  | c :: rest =>
    if c = '-' then
      match parseDigits rest with
      | some n => if (n : Int) ≤ 2 ^ 63 then some (-(n : Int)) else none
      | none => none
    else if c = '+' then
      match parseDigits rest with
      | some n => if (n : Int) ≤ 2 ^ 63 - 1 then some (n : Int) else none
      | none => none
    else
      match parseDigits (c :: rest) with
      | some n => if (n : Int) ≤ 2 ^ 63 - 1 then some (n : Int) else none
      | none => none

/-- The exponential arm of the 429 backoff in NewSource:
backoff := time.Duration(1<<uint(attemptNum)) * time.Second, capped at max,
then raised to min. -/
def backoffExp (minWait maxWait : Int) (attemptNum : Nat) : Int :=
  let b0 := wrap64 (shiftOne64 attemptNum * second)
  let b1 := if b0 > maxWait then maxWait else b0
  if b1 < minWait then minWait else b1

/-- The Backoff closure installed by articles.NewSource, on a 429 response:
when the Retry-After header is nonempty and Atoi parses it, the hinted
duration seconds * time.Second (int64 product) is returned capped at max and
raised to min; otherwise the exponential arm runs. -/
def backoff429 (minWait maxWait : Int) (attemptNum : Nat) (retryAfter : String) : Int :=
  if retryAfter ≠ "" then
    match atoi retryAfter with
    | some seconds =>
      let duration := wrap64 (seconds * second)
      if duration > maxWait then maxWait
      else if duration < minWait then minWait
      else duration
    | none => backoffExp minWait maxWait attemptNum
  else backoffExp minWait maxWait attemptNum

/-- Whitespace as trimmed by strings.TrimSpace (unicode.IsSpace, Latin-1
range: space, tab, newline, vertical tab, form feed, carriage return, NEL,
no-break space). -/
def isSpaceChar (c : Char) : Bool :=
  c == ' ' || c == '\t' || c == '\n' || c == '\x0b' || c == '\x0c' ||
    c == '\r' || c == '\x85' || c == '\xa0'

/-- strings.TrimSpace: leading and trailing whitespace removed. -/
def trimSpace (s : String) : String :=
  String.mk (((s.data.dropWhile isSpaceChar).reverse.dropWhile isSpaceChar).reverse)

mutual
/-- A parsed HTML node as the crawler sees it: a text node carrying its Data,
or an element carrying its children in document order. -/
inductive HNode where
  | textNode : String → HNode
  | elemNode : HForest → HNode
/-- A sibling list of HTML nodes in document order. -/
inductive HForest where
  | nilF : HForest
  | consF : HNode → HForest → HForest
end

mutual
/-- The crawler closure of Source.Fetch threaded through its string builder:
a text node appends its trimmed Data plus a newline unless the trim is empty;
children are visited in order. -/
def crawl : HNode → String → String
  | HNode.textNode s, acc =>
    let t := trimSpace s
    if t = "" then acc else acc ++ t ++ "\n"
  | HNode.elemNode f, acc => crawlForest f acc
/-- crawl over a sibling list, left to right. -/
def crawlForest : HForest → String → String
  | HForest.nilF, acc => acc
  | HForest.consF n f, acc => crawlForest f (crawl n acc)
end

mutual
/-- The raw Data of every text node of a document, in document order. -/
def rawFrags : HNode → List String
  | HNode.textNode s => [s]
  | HNode.elemNode f => rawFragsForest f
/-- rawFrags over a sibling list. -/
def rawFragsForest : HForest → List String
  | HForest.nilF => []
  | HForest.consF n f => rawFrags n ++ rawFragsForest f
end

/-- One line per fragment: each string followed by a newline. -/
def renderLines : List String → String
  | [] => ""
  | s :: rest => s ++ "\n" ++ renderLines rest

/-- The fragments the extraction keeps: each trimmed, whitespace-only
fragments dropped. -/
def keptFrags (frags : List String) : List String :=
  (frags.map trimSpace).filter (fun s => s != "")

/-- The extraction contract stated by the spec: one line per kept fragment in
document order. -/
def specExtract (n : HNode) : String := renderLines (keptFrags (rawFrags n))

/-- The configuration state of processing.Counter that WithWorkerCount
touches. -/
structure CounterCfg where
  workers : Int
deriving DecidableEq

/-- NewCounter before options run: workers defaults to runtime.NumCPU(). -/
def newCounterCfg (numCPU : Int) : CounterCfg := ⟨numCPU⟩

/-- WithWorkerCount: overrides the worker count only when positive. -/
def withWorkerCount (w : Int) (c : CounterCfg) : CounterCfg :=
  if w > 0 then ⟨w⟩ else c

/-- articles.NewSource: a non-positive ConcurrencyPerDomain falls back to the
default of 3. -/
def effectiveConcurrencyPerDomain (cfgValue : Int) : Int :=
  if cfgValue ≤ 0 then 3 else cfgValue

theorem lookupCount_addCount (m : List (String × Nat)) (k t : String) (n : Nat) :
    lookupCount (addCount m k n) t = lookupCount m t + (if k = t then n else 0) := by
  induction m with
  | nil =>
    by_cases h : k = t
    · subst h; simp [addCount, lookupCount]
    · simp [addCount, lookupCount, h]
  | cons kv rest ih =>
    obtain ⟨a, v⟩ := kv
    by_cases hak : a = k
    · subst hak
      by_cases hat : a = t
      · subst hat; simp [addCount, lookupCount]
      · simp [addCount, lookupCount, hat]
    · by_cases hat : a = t
      · have hkt : ¬k = t := fun h => hak (hat.trans h.symm)
        have htk : ¬t = k := fun h => hkt h.symm
        simp [addCount, lookupCount, hak, hat, hkt, htk]
      · simp [addCount, lookupCount, hak, hat, ih]

theorem entrySum_addCount (m : List (String × Nat)) (k t : String) (n : Nat) :
    entrySum (addCount m k n) t = entrySum m t + (if k = t then n else 0) := by
  induction m with
  | nil =>
    by_cases h : k = t
    · subst h; simp [addCount, entrySum]
    · simp [addCount, entrySum, h]
  | cons kv rest ih =>
    obtain ⟨a, v⟩ := kv
    by_cases hak : a = k
    · subst hak
      by_cases hat : a = t
      · subst hat; simp [addCount, entrySum]; omega
      · simp [addCount, entrySum, hat]
    · by_cases hat : a = t
      · subst hat; simp [addCount, entrySum, hak, ih]; omega
      · simp [addCount, entrySum, hak, hat, ih]

theorem lookupCount_mergeInto (p : List (String × Nat)) (g : List (String × Nat)) (t : String) :
    lookupCount (mergeInto g p) t = lookupCount g t + entrySum p t := by
  induction p generalizing g with
  | nil => simp [mergeInto, entrySum]
  | cons kv rest ih =>
    obtain ⟨k, v⟩ := kv
    have hstep : mergeInto g ((k, v) :: rest) = mergeInto (addCount g k v) rest := rfl
    rw [hstep, ih, lookupCount_addCount]
    simp only [entrySum]
    omega

theorem lookupCount_foldl_mergeInto (ps : List (List (String × Nat)))
    (g : List (String × Nat)) (t : String) :
    lookupCount (ps.foldl mergeInto g) t
      = lookupCount g t + (ps.map (fun p => entrySum p t)).sum := by
  induction ps generalizing g with
  | nil => simp
  | cons p rest ih =>
    simp only [List.foldl_cons, List.map_cons, List.sum_cons]
    rw [ih, lookupCount_mergeInto]
    omega

theorem entrySum_countFold (words : List String) (toks : List String)
    (m : List (String × Nat)) (t : String) :
    entrySum (toks.foldl
        (fun acc tok => if validate words tok then addCount acc tok 1 else acc) m) t
      = entrySum m t + occ t (toks.filter (validate words)) := by
  induction toks generalizing m with
  | nil => simp [occ]
  | cons tok rest ih =>
    simp only [List.foldl_cons, List.filter_cons]
    by_cases hv : validate words tok = true
    · rw [if_pos hv, ih, entrySum_addCount]
      simp only [hv, if_pos, occ]
      by_cases ht : tok = t
      · simp [ht]; omega
      · simp [ht]
    · have hv2 : validate words tok = false := by
        cases h : validate words tok with
        | true => exact absurd h hv
        | false => rfl
      rw [if_neg hv, ih]
      simp [hv2]

theorem entrySum_localCounts (words : List String) (text : String) (t : String) :
    entrySum (localCounts words text) t = docValidCount words t text := by
  have h := entrySum_countFold words (findAllWords text) [] t
  simpa [localCounts, docValidCount, entrySum] using h

theorem lookupCount_globalOf (words : List String) (steps : List DocStep) (t : String) :
    lookupCount (globalOf words steps) t
      = ((sentCounts words steps).map (fun p => entrySum p t)).sum := by
  have h := lookupCount_foldl_mergeInto (sentCounts words steps) [] t
  simpa [globalOf, lookupCount] using h

theorem sentCounts_okSteps_sum (words : List String) (texts : List String) (t : String) :
    ((sentCounts words (okSteps texts)).map (fun p => entrySum p t)).sum
      = (texts.map (fun text => docValidCount words t text)).sum := by
  induction texts with
  | nil => simp [sentCounts, okSteps]
  | cons text rest ih =>
    have hstep : sentCounts words (okSteps (text :: rest))
        = (match (processURLModel words (okStep text)).2 with
            | some p => p :: sentCounts words (okSteps rest)
            | none => sentCounts words (okSteps rest)) := by
      simp [sentCounts, okSteps, List.filterMap_cons]
      cases (processURLModel words (okStep text)).2 <;> simp [sentCounts, okSteps]
    by_cases hlen : (localCounts words text).length = 0
    · have hempty : localCounts words text = [] := List.length_eq_zero.mp hlen
      have hsent : (processURLModel words (okStep text)).2 = none := by
        simp [processURLModel, okStep, hlen]
      have hdoc : docValidCount words t text = 0 := by
        have h0 := entrySum_localCounts words text t
        rw [hempty] at h0
        simpa [entrySum] using h0.symm
      rw [hstep, hsent]
      simp only [List.map_cons, List.sum_cons, hdoc, ih]
      omega
    · have hsent : (processURLModel words (okStep text)).2 = some (localCounts words text) := by
        simp [processURLModel, okStep, hlen]
      rw [hstep, hsent]
      simp only [List.map_cons, List.sum_cons, ih, entrySum_localCounts]

/-- C1: in every run of CountTopWords in which every fetch succeeds and no
cancellation occurs, the global count of each token equals the sum, over all
documents, of that token's occurrences among the tokens extracted by the word
pattern and accepted by the validator, whatever order the workers processed
the documents in; and on the spec example (vocabulary alpha and beta,
documents "alpha alpha beta gamma" and "alpha delta", N = 2) the result is
the map alpha to 3 and beta to 1, with a nil error. -/
theorem c1_global_count_sum (words : List String) (texts order : List String)
    (t : String) (h : order.Perm texts) :
    lookupCount (globalOf words (okSteps order)) t
        = (texts.map (fun text => docValidCount words t text)).sum
    ∧ countTopWordsModel ["alpha", "beta"]
        (okSteps ["alpha alpha beta gamma", "alpha delta"]) 2
        = ([("alpha", 3), ("beta", 1)], none) := by
  constructor
  · rw [lookupCount_globalOf, sentCounts_okSteps_sum]
    exact (h.map (fun text => docValidCount words t text)).sum_eq
  · decide

/-- Witness for c1_global_count_sum: the spec example documents processed in
swapped order still count alpha three times. -/
theorem c1_global_count_sum_witness :
    lookupCount (globalOf ["alpha", "beta"]
        (okSteps ["alpha delta", "alpha alpha beta gamma"])) "alpha"
      = (["alpha alpha beta gamma", "alpha delta"].map
          (fun text => docValidCount ["alpha", "beta"] "alpha" text)).sum
    ∧ countTopWordsModel ["alpha", "beta"]
        (okSteps ["alpha alpha beta gamma", "alpha delta"]) 2
        = ([("alpha", 3), ("beta", 1)], none) :=
  c1_global_count_sum ["alpha", "beta"]
    ["alpha alpha beta gamma", "alpha delta"]
    ["alpha delta", "alpha alpha beta gamma"] "alpha"
    (List.Perm.swap "alpha alpha beta gamma" "alpha delta" [])

/-- C3 counterexample: with vocabulary alpha, the document
"alpha alpha alpha" produces the non-empty partial count alpha to 3, yet when
the cancellation branch of the handoff select is taken the run's global count
holds zero for alpha: the produced partial was silently dropped (and the
worker even reports success). -/
theorem c3_counterexample :
    (processURLModel ["alpha"] ⟨FetchOutcome.ok "alpha alpha alpha", true⟩).1 = true
    ∧ localCounts ["alpha"] "alpha alpha alpha" = [("alpha", 3)]
    ∧ lookupCount (globalOf ["alpha"]
        [⟨FetchOutcome.ok "alpha alpha alpha", true⟩]) "alpha" = 0 := by
  decide

/-- C3 amended: every partial count handed off to the merge channel before
cancellation is folded into the global count, which equals exactly the sum of
the handed-off partials; however a partial that a worker produced but had not
yet handed off when the cancellation branch of the select fired is dropped
and never reaches the global count. -/
theorem c3_merged_iff_handed_off (words : List String) (steps : List DocStep)
    (t : String) :
    lookupCount (globalOf words steps) t
      = ((sentCounts words steps).map (fun p => entrySum p t)).sum :=
  lookupCount_globalOf words steps t

/-- C9: CountTopWords returns a nil error on every run, whatever mix of fetch
failures, empty documents and cancellations the run contained, and its result
is the (possibly empty) ranked map. -/
theorem c9_no_error (words : List String) (steps : List DocStep) (topN : Int) :
    (countTopWordsModel words steps topN).2 = none
    ∧ (countTopWordsModel words steps topN).1
        = pickTop (globalOf words steps) topN :=
  ⟨rfl, rfl⟩

/-- C10: a non-positive WithWorkerCount option leaves the worker count at the
NumCPU default, and a non-positive ConcurrencyPerDomain yields the default
per-domain cap of 3. -/
theorem c10_nonpositive_config_ignored (numCPU w c : Int) (hw : w ≤ 0) (hc : c ≤ 0) :
    (withWorkerCount w (newCounterCfg numCPU)).workers = numCPU
    ∧ effectiveConcurrencyPerDomain c = 3 := by
  constructor
  · unfold withWorkerCount newCounterCfg
    rw [if_neg (by omega)]
  · unfold effectiveConcurrencyPerDomain
    rw [if_pos hc]

/-- Witness for c10_nonpositive_config_ignored: worker count 0 with 8 CPUs,
per-domain concurrency -5. -/
theorem c10_nonpositive_config_ignored_witness :
    (withWorkerCount 0 (newCounterCfg 8)).workers = 8
    ∧ effectiveConcurrencyPerDomain (-5) = 3 :=
  c10_nonpositive_config_ignored 8 0 (-5) (by decide) (by decide)

/-- C7: pickTop returns the empty map when the requested size is non-positive
or the global count map is empty. -/
theorem c7_pickTop_empty (g : List (String × Nat)) (N : Int)
    (h : N ≤ 0 ∨ g = []) : pickTop g N = [] := by
  unfold pickTop
  rcases h with h | h
  · rw [if_pos (Or.inl h)]
  · rw [if_pos (Or.inr (by simp [h]))]

/-- Witness for c7_pickTop_empty: size 0 on a singleton map and size 5 on the
empty map. -/
theorem c7_pickTop_empty_witness :
    pickTop [("alpha", 1)] 0 = [] ∧ pickTop ([] : List (String × Nat)) 5 = [] :=
  ⟨c7_pickTop_empty [("alpha", 1)] 0 (Or.inl (by decide)),
   c7_pickTop_empty [] 5 (Or.inr rfl)⟩

theorem matchWordShape_iff (w : String) :
    matchWordShape w = true
      ↔ (3 ≤ w.data.length ∧ ∀ c ∈ w.data, isWordChar c = true) := by
  obtain ⟨l⟩ := w
  show matchWordShape (String.mk l) = true ↔ (3 ≤ l.length ∧ ∀ c ∈ l, isWordChar c = true)
  rcases l with _ | ⟨c1, _ | ⟨c2, _ | ⟨c3, rest⟩⟩⟩
  · simp [matchWordShape]
  · simp [matchWordShape]
  · simp [matchWordShape]
  · simp only [matchWordShape, Bool.and_eq_true, List.all_eq_true, List.length_cons,
      List.mem_cons]
    constructor
    · rintro ⟨⟨⟨h1, h2⟩, h3⟩, h4⟩
      refine ⟨by omega, ?_⟩
      rintro c (rfl | rfl | rfl | hc)
      · exact h1
      · exact h2
      · exact h3
      · exact h4 c hc
    · rintro ⟨-, hall⟩
      exact ⟨⟨⟨hall c1 (Or.inl rfl), hall c2 (Or.inr (Or.inl rfl))⟩,
        hall c3 (Or.inr (Or.inr (Or.inl rfl)))⟩,
        fun c hc => hall c (Or.inr (Or.inr (Or.inr hc)))⟩

/-- C5: the validator accepts a token iff it consists of at least three word
characters and nothing else and is a member of the vocabulary; equivalently
it rejects tokens shorter than three characters, tokens containing any
non-word character, and tokens absent from the vocabulary, for every
vocabulary. -/
theorem c5_validate_iff (words : List String) (w : String) :
    validate words w = true
      ↔ (3 ≤ w.data.length ∧ (∀ c ∈ w.data, isWordChar c = true) ∧ w ∈ words) := by
  unfold validate
  by_cases hm : matchWordShape w = true
  · obtain ⟨hlen, hall⟩ := (matchWordShape_iff w).mp hm
    simp only [hm, Bool.not_true, Bool.false_eq_true, if_false]
    constructor
    · intro hcont
      exact ⟨hlen, hall, (List.elem_iff).mp hcont⟩
    · rintro ⟨-, -, hmem⟩
      exact (List.elem_iff).mpr hmem
  · have hm2 : matchWordShape w = false := by
      cases h : matchWordShape w with
      | true => exact absurd h hm
      | false => rfl
    simp only [hm2, Bool.not_false, if_true]
    constructor
    · intro h; exact absurd h (by simp)
    · rintro ⟨hlen, hall, -⟩
      exact absurd ((matchWordShape_iff w).mpr ⟨hlen, hall⟩) hm

/-- C6: for a positive requested size, pickTop returns exactly
min(N, number of entries) pairs, and every retained count is at least every
excluded count. -/
theorem c6_pickTop_size_ranked (g : List (String × Nat)) (N : Int) (hN : 0 < N)
    (hkeys : (g.map Prod.fst).Nodup) :
    (pickTop g N).length = min N.toNat g.length
    ∧ ∀ p ∈ pickTop g N, ∀ q ∈ g, q ∉ pickTop g N → q.2 ≤ p.2 := by
  by_cases hg : g.length = 0
  · have hnil : g = [] := List.length_eq_zero.mp hg
    subst hnil
    constructor
    · simp [pickTop]
    · intro p hp q hq
      exact absurd hq (by simp)
  · have hcond : ¬(N ≤ 0 ∨ g.length = 0) := by
      rintro (h | h)
      · omega
      · exact hg h
    have hperm : List.Perm (g.insertionSort countGE) g := List.perm_insertionSort countGE g
    have hlen : (g.insertionSort countGE).length = g.length := hperm.length_eq
    have hsorted : List.Pairwise countGE (g.insertionSort countGE) :=
      List.sorted_insertionSort countGE g
    by_cases hgt : (g.insertionSort countGE).length > N.toNat
    · have hpick : pickTop g N = (g.insertionSort countGE).take N.toNat := by
        unfold pickTop
        rw [if_neg hcond, if_pos hgt]
      constructor
      · rw [hpick, List.length_take, hlen]
      · intro p hp q hq hnq
        rw [hpick] at hp hnq
        have hqs : q ∈ g.insertionSort countGE := hperm.mem_iff.mpr hq
        have hsplit : q ∈ (g.insertionSort countGE).take N.toNat
            ∨ q ∈ (g.insertionSort countGE).drop N.toNat := by
          rw [← List.mem_append, List.take_append_drop]
          exact hqs
        have hqd : q ∈ (g.insertionSort countGE).drop N.toNat :=
          hsplit.resolve_left hnq
        have hpw : List.Pairwise countGE
            ((g.insertionSort countGE).take N.toNat
              ++ (g.insertionSort countGE).drop N.toNat) := by
          rw [List.take_append_drop]
          exact hsorted
        exact (List.pairwise_append.mp hpw).2.2 p hp q hqd
    · have hpick : pickTop g N = g.insertionSort countGE := by
        unfold pickTop
        rw [if_neg hcond, if_neg hgt]
      constructor
      · rw [hpick, hlen]
        omega
      · intro p hp q hq hnq
        rw [hpick] at hnq
        exact absurd (hperm.mem_iff.mpr hq) hnq

/-- Witness for c6_pickTop_size_ranked: the two-entry map alpha to 3, beta to
1 with requested size 1 keeps exactly the one highest-count entry. -/
theorem c6_pickTop_size_ranked_witness :
    (pickTop [("alpha", 3), ("beta", 1)] 1).length
        = min (Int.toNat 1) ([(("alpha" : String), 3), ("beta", 1)].length)
    ∧ ∀ p ∈ pickTop [("alpha", 3), ("beta", 1)] 1,
        ∀ q ∈ [(("alpha" : String), 3), ("beta", 1)],
          q ∉ pickTop [("alpha", 3), ("beta", 1)] 1 → q.2 ≤ p.2 :=
  c6_pickTop_size_ranked [("alpha", 3), ("beta", 1)] 1 (by decide) (by decide)

theorem doAttempts_le (retryMax : Int) (bs : List Bool) :
    ∀ i : Int, doAttempts retryMax i bs ≤ (retryMax - i).toNat + 1 := by
  induction bs with
  | nil => intro i; simp [doAttempts]
  | cons b rest ih =>
    intro i
    simp only [doAttempts]
    by_cases hc : b = true ∧ 0 < retryMax - i
    · rw [if_pos hc]
      have h2 := ih (i + 1)
      omega
    · rw [if_neg hc]
      omega

/-- C2 counterexample: an HTTP 500 response with no transport error is
classified as retryable by the installed CheckRetry (which delegates 5xx
handling to the library default policy), while the claim demands that every
5xx fail immediately with no retry. -/
theorem c2_counterexample :
    checkRetry false (some { statusCode := 500 }) none = true := by decide

/-- C2 amended: with a live context, the installed retry policy retries
exactly on status 429, on a transient network error, and on a response with
status 0 or a 5xx status other than 501; every other 4xx (and 501) fails
immediately with no retry; and the retry loop performs at most
RetryMax + 1 attempts. -/
theorem c2_retry_classification (resp : Option HResponse) (err : Option FetchErr) :
    (checkRetry false resp err = true ↔
      ((∃ r, resp = some r ∧ r.statusCode = 429)
        ∨ err = some FetchErr.transient
        ∨ (err = none ∧ ∃ r, resp = some r
            ∧ (r.statusCode = 0 ∨ (500 ≤ r.statusCode ∧ r.statusCode ≠ 501)))))
    ∧ ∀ (retryMax : Int) (verdicts : List Bool),
        doAttempts retryMax 0 verdicts ≤ retryMax.toNat + 1 := by
  constructor
  · cases resp with
    | none =>
      cases err with
      | none => simp [checkRetry, defaultRetryPolicy, baseRetryPolicy]
      | some e =>
        cases e <;> simp [checkRetry, defaultRetryPolicy, baseRetryPolicy]
    | some r =>
      by_cases h429 : r.statusCode = 429
      · simp [checkRetry, h429]
      · cases err with
        | none =>
          by_cases h5 : r.statusCode = 0 ∨ (500 ≤ r.statusCode ∧ r.statusCode ≠ 501)
          · simp [checkRetry, defaultRetryPolicy, baseRetryPolicy, h429, h5]
          · simp [checkRetry, defaultRetryPolicy, baseRetryPolicy, h429, h5]
        | some e =>
          cases e <;>
            simp [checkRetry, defaultRetryPolicy, baseRetryPolicy, h429]
  · intro retryMax verdicts
    have h := doAttempts_le retryMax verdicts 0
    simpa using h

theorem wrap64_eq_self (n : Int) (h1 : -(2 ^ 63) ≤ n) (h2 : n < 2 ^ 63) :
    wrap64 n = n := by
  have e63 : (2 : Int) ^ 63 = 9223372036854775808 := by norm_num
  have e64 : (2 : Int) ^ 64 = 18446744073709551616 := by norm_num
  unfold wrap64
  rw [e63, e64]
  rw [e63] at h1 h2
  omega

/-- C4 counterexample: a 429 response whose Retry-After hint is the parseable
integer 10000000000 (about 317 years), with bounds one to five seconds,
yields a delay of one second, not the claimed clamp to five seconds: the
product seconds * time.Second overflows int64 to a negative duration, which
the code then raises to the minimum wait. -/
theorem c4_counterexample :
    backoff429 1000000000 5000000000 0 "10000000000" = 1000000000
    ∧ backoff429 1000000000 5000000000 0 "10000000000" ≠ 5000000000 := by
  decide

/-- C4 amended: for a 429 retry with minWait <= maxWait, when the retry hint
parses to an integer whose duration in nanoseconds fits int64, the delay is
the hinted duration clamped to the bounds; when the hint is absent or
unparseable and 2^attempt seconds fits int64 (attempt <= 33), the delay is
2^attempt seconds clamped to the bounds; beyond those ranges the computed
64-bit duration wraps before clamping. In particular hint "5" with bounds
one to five seconds gives exactly 5s, hint "100" gives 5s, hint "0" gives
1s. -/
theorem c4_backoff429_clamped (minWait maxWait : Int) (attemptNum : Nat)
    (retryAfter : String) (hbounds : minWait ≤ maxWait) :
    (∀ s : Int, atoi retryAfter = some s → -(2 ^ 63) ≤ s * second →
        s * second < 2 ^ 63 →
        backoff429 minWait maxWait attemptNum retryAfter
          = max minWait (min maxWait (s * second)))
    ∧ (atoi retryAfter = none → attemptNum ≤ 33 →
        backoff429 minWait maxWait attemptNum retryAfter
          = max minWait (min maxWait (2 ^ attemptNum * second))) := by
  constructor
  · intro s hs h1 h2
    have hne : retryAfter ≠ "" := by
      intro he
      rw [he] at hs
      have h0 : atoi "" = none := rfl
      rw [h0] at hs
      exact Option.noConfusion hs
    unfold backoff429
    rw [if_pos hne, hs]
    simp only []
    rw [wrap64_eq_self (s * second) h1 h2]
    split_ifs <;> omega
  · intro hnone hle
    have hexp : backoff429 minWait maxWait attemptNum retryAfter
        = backoffExp minWait maxWait attemptNum := by
      unfold backoff429
      by_cases he : retryAfter = ""
      · rw [if_neg (fun hne => hne he)]
      · rw [if_pos he, hnone]
    rw [hexp]
    unfold backoffExp
    have hpow : (2 : Int) ^ attemptNum ≤ 2 ^ 33 :=
      pow_le_pow_right₀ (by norm_num) hle
    have hsh : shiftOne64 attemptNum = 2 ^ attemptNum := by
      unfold shiftOne64
      rw [if_pos (by omega)]
      apply wrap64_eq_self
      · have hp : (0 : Int) ≤ 2 ^ attemptNum := by positivity
        have : (0 : Int) ≤ 2 ^ 63 := by positivity
        omega
      · calc (2 : Int) ^ attemptNum ≤ 2 ^ 33 := hpow
          _ < 2 ^ 63 := by norm_num
    rw [hsh]
    have hb1 : -(2 ^ 63) ≤ (2 : Int) ^ attemptNum * second := by
      have hp : (0 : Int) ≤ 2 ^ attemptNum * second := by
        have := pow_nonneg (by norm_num : (0 : Int) ≤ 2) attemptNum
        have hsec : (0 : Int) ≤ second := by norm_num [second]
        exact mul_nonneg this hsec
      have : (0 : Int) ≤ 2 ^ 63 := by positivity
      omega
    have hb2 : (2 : Int) ^ attemptNum * second < 2 ^ 63 := by
      have hstep : (2 : Int) ^ attemptNum * second ≤ 2 ^ 33 * second :=
        mul_le_mul_of_nonneg_right hpow (by norm_num [second])
      calc (2 : Int) ^ attemptNum * second ≤ 2 ^ 33 * second := hstep
        _ < 2 ^ 63 := by norm_num [second]
    rw [wrap64_eq_self (2 ^ attemptNum * second) hb1 hb2]
    simp only []
    split_ifs <;> omega

/-- Witness for c4_backoff429_clamped at the spec examples: bounds one to
five seconds; hint "5" gives exactly five seconds, hint "100" clamps down to
five seconds, hint "0" clamps up to one second. -/
theorem c4_backoff429_clamped_witness :
    backoff429 1000000000 5000000000 0 "5" = 5000000000
    ∧ backoff429 1000000000 5000000000 0 "100" = 5000000000
    ∧ backoff429 1000000000 5000000000 0 "0" = 1000000000 := by
  refine ⟨?_, ?_, ?_⟩
  · have h := (c4_backoff429_clamped 1000000000 5000000000 0 "5"
      (by norm_num)).1 5 (by decide) (by decide) (by decide)
    rw [h]; decide
  · have h := (c4_backoff429_clamped 1000000000 5000000000 0 "100"
      (by norm_num)).1 100 (by decide) (by decide) (by decide)
    rw [h]; decide
  · have h := (c4_backoff429_clamped 1000000000 5000000000 0 "0"
      (by norm_num)).1 0 (by decide) (by decide) (by decide)
    rw [h]; decide

theorem renderLines_append (a b : List String) :
    renderLines (a ++ b) = renderLines a ++ renderLines b := by
  induction a with
  | nil => simp [renderLines]
  | cons s rest ih =>
    have ih2 : renderLines (rest.append b) = renderLines rest ++ renderLines b := ih
    simp only [List.cons_append, renderLines, ih2, String.append_assoc]

mutual
theorem crawl_spec : ∀ (n : HNode) (acc : String), crawl n acc = acc ++ specExtract n
  | HNode.textNode s, acc => by
    unfold crawl specExtract rawFrags keptFrags
    by_cases ht : trimSpace s = ""
    · simp [ht, renderLines, String.append_empty]
    · simp [ht, renderLines, String.append_assoc, String.append_empty]
  | HNode.elemNode f, acc => by
    have h := crawlForest_spec f acc
    simpa [crawl, specExtract, rawFrags] using h
theorem crawlForest_spec : ∀ (f : HForest) (acc : String),
    crawlForest f acc = acc ++ renderLines (keptFrags (rawFragsForest f))
  | HForest.nilF, acc => by
    simp [crawlForest, rawFragsForest, keptFrags, renderLines, String.append_empty]
  | HForest.consF n f, acc => by
    have h1 := crawl_spec n acc
    have h2 := crawlForest_spec f (crawl n acc)
    calc crawlForest (HForest.consF n f) acc
        = crawlForest f (crawl n acc) := rfl
      _ = crawl n acc ++ renderLines (keptFrags (rawFragsForest f)) := h2
      _ = (acc ++ specExtract n) ++ renderLines (keptFrags (rawFragsForest f)) := by
            rw [h1]
      _ = acc ++ (specExtract n ++ renderLines (keptFrags (rawFragsForest f))) :=
            String.append_assoc acc _ _
      _ = acc ++ renderLines (keptFrags (rawFragsForest (HForest.consF n f))) := by
            simp only [specExtract, rawFragsForest, keptFrags, List.map_append,
              List.filter_append, renderLines_append]
end

/-- C8: on every parsed document, the crawler of Source.Fetch produces
exactly one line per text fragment in document order, each fragment trimmed
of leading and trailing whitespace, with whitespace-only fragments omitted
(the contract stated by specExtract). -/
theorem c8_extraction (doc : HNode) : crawl doc "" = specExtract doc := by
  have h := crawl_spec doc ""
  simpa [String.empty_append] using h
